import Mathlib

/-!
Verification of the run-tracking session core of the `arc` repository.

The development shallowly embeds the tracking logic of
`src/frontend/app/run/active.tsx` (second screen variant, the one with the
background buffer) and the shared geo helpers of `src/frontend/src/utils/geo`:

* `haversineDistance` — the pure distance function on `[lng, lat]` pairs;
* `mergeCoords`       — the stop-time reconciliation of the foreground and
  background sample buffers (stable sort by timestamp, greedy 3-meter dedup,
  fallback to the foreground buffer when fewer than 2 points survive);
* `recordFix`         — the foreground location callback's incremental
  distance accumulation;
* `tickPace` / `formatPace` — the 1-second timer's pace update and display;
* `submitRun` / `handleStopRun` — the session controller's stop path,
  with the remote `endRun` call abstracted as a function parameter.

JavaScript numbers are modelled as real numbers; JS `Array.prototype.sort`
(stable, mandated by ES2019) is modelled by a stable insertion sort on the
comparator's key `timestamp || 0`.
-/

/-- A GPS sample as held in the buffers of `active.tsx`:
`{ latitude, longitude, timestamp?: number }`. -/
structure Coord where
  latitude : ℝ
  longitude : ℝ
  timestamp : Option ℤ

/-- The `a` intermediate of the haversine formula in `geo.ts`:
`sin(dlat/2)^2 + cos(lat1)*cos(lat2)*sin(dlng/2)^2`, on `[lng, lat]` pairs. -/
noncomputable def havA (coord1 coord2 : ℝ × ℝ) : ℝ :=
  Real.sin ((coord2.2 - coord1.2) * Real.pi / 180 / 2) ^ 2 +
    Real.cos (coord1.2 * Real.pi / 180) * Real.cos (coord2.2 * Real.pi / 180) *
      Real.sin ((coord2.1 - coord1.1) * Real.pi / 180 / 2) ^ 2

/-- `haversineDistance` from `geo.ts`: distance in km between two
`[lng, lat]` pairs, `R * 2 * asin(sqrt(max(0, a)))` with `R = 6371`. -/
noncomputable def haversineDistance (coord1 coord2 : ℝ × ℝ) : ℝ :=
  6371 * 2 * Real.arcsin (Real.sqrt (max 0 (havA coord1 coord2)))

/-- Distance between two buffered samples, exactly as every call site builds
it: `haversineDistance([p.longitude, p.latitude], [q.longitude, q.latitude])`. -/
noncomputable def coordDist (p q : Coord) : ℝ :=
  haversineDistance (p.longitude, p.latitude) (q.longitude, q.latitude)

lemma sin_half_sq_symm (x y : ℝ) :
    Real.sin ((x - y) * Real.pi / 180 / 2) ^ 2 =
      Real.sin ((y - x) * Real.pi / 180 / 2) ^ 2 := by
  rw [show (y - x) * Real.pi / 180 / 2 = -((x - y) * Real.pi / 180 / 2) by ring,
    Real.sin_neg]
  ring

lemma havA_symm (p q : ℝ × ℝ) : havA p q = havA q p := by
  unfold havA
  rw [sin_half_sq_symm q.2 p.2, sin_half_sq_symm q.1 p.1]
  ring

lemma havA_self (p : ℝ × ℝ) : havA p p = 0 := by
  unfold havA
  simp

lemma haversineDistance_self (p : ℝ × ℝ) : haversineDistance p p = 0 := by
  unfold haversineDistance
  rw [havA_self]
  simp

lemma coordDist_self (p : Coord) : coordDist p p = 0 :=
  haversineDistance_self _

/-- On the equator the haversine distance is exactly
`6371 * |Δlng| * π / 180` (for `|Δlng| ≤ 180` degrees). -/
lemma haversineDistance_equator (a b : ℝ) (h : |b - a| ≤ 180) :
    haversineDistance (a, 0) (b, 0) = 6371 * (|b - a| * Real.pi / 180) := by
  have hA : havA (a, 0) (b, 0) = Real.sin ((b - a) * Real.pi / 180 / 2) ^ 2 := by
    unfold havA
    simp
  set t : ℝ := (b - a) * Real.pi / 180 / 2 with ht
  have habs_t : |t| = |b - a| * (Real.pi / 360) := by
    rw [ht, show (b - a) * Real.pi / 180 / 2 = (b - a) * (Real.pi / 360) by ring,
      abs_mul, abs_of_pos (by positivity : (0:ℝ) < Real.pi / 360)]
  have habs_le : |t| ≤ Real.pi / 2 := by
    rw [habs_t]
    calc |b - a| * (Real.pi / 360) ≤ 180 * (Real.pi / 360) :=
          mul_le_mul_of_nonneg_right h (by positivity)
      _ = Real.pi / 2 := by ring
  have habs_sin : |Real.sin t| = Real.sin |t| := by
    rcases le_or_lt 0 t with hpos | hneg
    · have h0 : |t| = t := abs_of_nonneg hpos
      rw [h0]
      refine abs_of_nonneg (Real.sin_nonneg_of_nonneg_of_le_pi hpos ?_)
      rw [← h0]
      linarith [habs_le, Real.pi_pos]
    · have h1 : |t| = -t := abs_of_neg hneg
      have h3 : 0 ≤ Real.sin (-t) := by
        refine Real.sin_nonneg_of_nonneg_of_le_pi (by linarith) ?_
        rw [← h1]
        linarith [habs_le, Real.pi_pos]
      calc |Real.sin t| = |-Real.sin t| := (abs_neg _).symm
        _ = |Real.sin (-t)| := by rw [Real.sin_neg]
        _ = Real.sin (-t) := abs_of_nonneg h3
        _ = Real.sin |t| := by rw [h1]
  unfold haversineDistance
  rw [hA, max_eq_right (sq_nonneg _), Real.sqrt_sq_eq_abs, habs_sin,
    Real.arcsin_sin (by linarith [abs_nonneg t, Real.pi_pos]) habs_le, habs_t]
  ring

/-- The sort key of the comparator in `mergeCoords`:
`(a.timestamp || 0) - (b.timestamp || 0)` compares samples by
`timestamp || 0`, so a missing timestamp sorts as `0` (earliest). -/
def tsKey (c : Coord) : ℤ :=
  c.timestamp.getD 0

/-- Stable insertion of a sample into an already sorted list: the new sample
goes in front of the first element with a key not smaller than its own.
Together with `sortTs` this models the (stable, ES2019) behaviour of
`combined.sort((a, b) => (a.timestamp || 0) - (b.timestamp || 0))`. -/
def insertTs (c : Coord) : List Coord → List Coord
  | [] => [c]
  | d :: ds => if tsKey c ≤ tsKey d then c :: d :: ds else d :: insertTs c ds

/-- Stable ascending sort by `timestamp || 0` (the `combined.sort(...)` call
of `mergeCoords`). -/
def sortTs : List Coord → List Coord
  | [] => []
  | c :: cs => insertTs c (sortTs cs)

/-- One iteration of the dedup loop in `mergeCoords`: push the sample when
`result` is still empty, otherwise push it only when its distance to
`result[result.length - 1]` exceeds 0.003 km. -/
noncomputable def dedupStep (result : List Coord) (c : Coord) : List Coord :=
  match result.getLast? with
  | none => [c]
  | some last => if 0.003 < coordDist last c then result ++ [c] else result

/-- The full `for (const c of combined)` dedup loop of `mergeCoords`. -/
noncomputable def dedupLoop (combined : List Coord) : List Coord :=
  List.foldl dedupStep [] combined

/-- `mergeCoords(foreground, background)` from `active.tsx`: concatenate,
sort by timestamp, drop near-duplicates (≤ 3 m), and fall back to the
foreground buffer when fewer than 2 points survive
(`result.length >= 2 ? result : foreground`). -/
noncomputable def mergeCoords (foreground background : List Coord) : List Coord :=
  let combined := foreground ++ background
  let sorted := sortTs combined
  let result := dedupLoop sorted
  if 2 ≤ result.length then result else foreground

/-- The greedy pass as the spec words it (§4.4 step 3): keep the first sample
unconditionally; keep each later sample iff its haversine distance to the
last kept sample exceeds 3 meters. `dedupFrom last l` processes `l` with
`last` as the last kept sample. -/
noncomputable def dedupFrom (last : Coord) : List Coord → List Coord
  | [] => []
  | c :: cs =>
    if 0.003 < coordDist last c then c :: dedupFrom c cs else dedupFrom last cs

/-- Spec-side greedy 3-meter dedup (§4.4 step 3). -/
noncomputable def specDedup : List Coord → List Coord
  | [] => []
  | c :: cs => c :: dedupFrom c cs

/-- Spec-side merge algorithm as claimed in §4.4 steps 1–3: concatenation,
stable ascending sort by timestamp (missing = 0), then the greedy 3-meter
dedup — with no fallback step. -/
noncomputable def specMergeAlg (fg bg : List Coord) : List Coord :=
  specDedup (sortTs (fg ++ bg))

lemma mem_insertTs {x c : Coord} : ∀ {l : List Coord},
    x ∈ insertTs c l → x = c ∨ x ∈ l
  | [], h => by
    simp only [insertTs, List.mem_singleton] at h
    exact Or.inl h
  | d :: ds, h => by
    by_cases hc : tsKey c ≤ tsKey d
    · rw [insertTs, if_pos hc] at h
      rcases List.mem_cons.1 h with h1 | h1
      · exact Or.inl h1
      · exact Or.inr h1
    · rw [insertTs, if_neg hc] at h
      rcases List.mem_cons.1 h with h1 | h1
      · exact Or.inr (h1 ▸ List.mem_cons_self d ds)
      · rcases mem_insertTs h1 with h2 | h2
        · exact Or.inl h2
        · exact Or.inr (List.mem_cons_of_mem d h2)

lemma pairwise_insertTs {c : Coord} : ∀ {l : List Coord},
    l.Pairwise (fun a b => tsKey a ≤ tsKey b) →
      (insertTs c l).Pairwise (fun a b => tsKey a ≤ tsKey b)
  | [], _ => by simp [insertTs]
  | d :: ds, h => by
    rcases List.pairwise_cons.1 h with ⟨hd, hds⟩
    by_cases hc : tsKey c ≤ tsKey d
    · rw [insertTs, if_pos hc]
      refine List.pairwise_cons.2 ⟨?_, h⟩
      intro b hb
      rcases List.mem_cons.1 hb with hb | hb
      · exact hb ▸ hc
      · exact le_trans hc (hd b hb)
    · rw [insertTs, if_neg hc]
      refine List.pairwise_cons.2 ⟨?_, pairwise_insertTs hds⟩
      intro b hb
      rcases mem_insertTs hb with hb | hb
      · exact hb ▸ le_of_not_le hc
      · exact hd b hb

lemma sortTs_pairwise : ∀ l : List Coord,
    (sortTs l).Pairwise (fun a b => tsKey a ≤ tsKey b)
  | [] => by simp [sortTs]
  | c :: cs => by
    rw [sortTs]
    exact pairwise_insertTs (sortTs_pairwise cs)

lemma sortTs_eq_of_pairwise : ∀ {l : List Coord},
    l.Pairwise (fun a b => tsKey a ≤ tsKey b) → sortTs l = l
  | [], _ => rfl
  | c :: cs, h => by
    rcases List.pairwise_cons.1 h with ⟨hc, hcs⟩
    rw [sortTs, sortTs_eq_of_pairwise hcs]
    cases cs with
    | nil => rfl
    | cons d ds =>
      rw [insertTs, if_pos (hc d (List.mem_cons_self d ds))]

lemma foldl_dedupStep : ∀ (cs r : List Coord) (x : Coord),
    List.foldl dedupStep (r ++ [x]) cs = (r ++ [x]) ++ dedupFrom x cs
  | [], r, x => by simp [dedupFrom]
  | c :: cs, r, x => by
    have hstep : dedupStep (r ++ [x]) c =
        if 0.003 < coordDist x c then (r ++ [x]) ++ [c] else r ++ [x] := by
      rw [dedupStep, List.getLast?_concat]
    rw [List.foldl_cons, hstep, dedupFrom]
    by_cases hd : 0.003 < coordDist x c
    · rw [if_pos hd, if_pos hd, foldl_dedupStep cs (r ++ [x]) c]
      simp
    · rw [if_neg hd, if_neg hd, foldl_dedupStep cs r x]

lemma dedupLoop_eq_specDedup : ∀ l : List Coord, dedupLoop l = specDedup l
  | [] => rfl
  | c :: cs => by
    have h0 : dedupStep [] c = [c] := rfl
    rw [dedupLoop, List.foldl_cons, h0, specDedup,
      show [c] = [] ++ [c] from rfl, foldl_dedupStep cs [] c]
    simp

lemma dedupFrom_sublist : ∀ (l : List Coord) (x : Coord),
    (dedupFrom x l).Sublist l
  | [], _ => List.Sublist.refl []
  | c :: cs, x => by
    rw [dedupFrom]
    by_cases hd : 0.003 < coordDist x c
    · rw [if_pos hd]
      exact (dedupFrom_sublist cs c).cons₂ c
    · rw [if_neg hd]
      exact (dedupFrom_sublist cs x).cons c

lemma specDedup_sublist : ∀ l : List Coord, (specDedup l).Sublist l
  | [] => List.Sublist.refl []
  | c :: cs => by
    rw [specDedup]
    exact (dedupFrom_sublist cs c).cons₂ c

lemma chain'_dedupFrom : ∀ (l : List Coord) (x : Coord),
    List.Chain' (fun a b => 0.003 < coordDist a b) (x :: dedupFrom x l)
  | [], x => List.chain'_singleton x
  | c :: cs, x => by
    rw [dedupFrom]
    by_cases hd : 0.003 < coordDist x c
    · rw [if_pos hd]
      exact (List.chain'_cons).2 ⟨hd, chain'_dedupFrom cs c⟩
    · rw [if_neg hd]
      exact chain'_dedupFrom cs x

lemma specDedup_chain' : ∀ l : List Coord,
    List.Chain' (fun a b => 0.003 < coordDist a b) (specDedup l)
  | [] => List.chain'_nil
  | c :: cs => chain'_dedupFrom cs c

lemma dedupFrom_of_chain' : ∀ {l : List Coord} {x : Coord},
    List.Chain' (fun a b => 0.003 < coordDist a b) (x :: l) → dedupFrom x l = l
  | [], _, _ => rfl
  | c :: cs, x, h => by
    rcases List.chain'_cons.1 h with ⟨h1, h2⟩
    rw [dedupFrom, if_pos h1, dedupFrom_of_chain' h2]

lemma specDedup_of_chain' {l : List Coord}
    (h : List.Chain' (fun a b => 0.003 < coordDist a b) l) : specDedup l = l := by
  cases l with
  | nil => rfl
  | cons c cs => rw [specDedup, dedupFrom_of_chain' h]

/-- `mergeCoords` is steps 1–3 of the spec's merge algorithm followed by the
fallback of step 4. -/
lemma mergeCoords_spec (fg bg : List Coord) :
    mergeCoords fg bg =
      if 2 ≤ (specMergeAlg fg bg).length then specMergeAlg fg bg else fg := by
  rw [mergeCoords, specMergeAlg, dedupLoop_eq_specDedup]

lemma specMergeAlg_pairwise (fg bg : List Coord) :
    (specMergeAlg fg bg).Pairwise (fun a b => tsKey a ≤ tsKey b) :=
  (sortTs_pairwise (fg ++ bg)).sublist (specDedup_sublist _)

lemma mergeCoords_self_merged {fg bg : List Coord}
    (h : 2 ≤ (specMergeAlg fg bg).length) :
    mergeCoords (mergeCoords fg bg) [] = mergeCoords fg bg := by
  have hm : mergeCoords fg bg = specMergeAlg fg bg := by
    rw [mergeCoords_spec, if_pos h]
  rw [hm, mergeCoords_spec]
  have h1 : specMergeAlg (specMergeAlg fg bg) [] = specMergeAlg fg bg := by
    rw [specMergeAlg, List.append_nil,
      sortTs_eq_of_pairwise (specMergeAlg_pairwise fg bg),
      specMergeAlg, specDedup_of_chain' (specDedup_chain' _)]
  rw [h1, if_pos h]

/-- The `status` React state of `ActiveRunScreen`. -/
inductive RunStatus
  | requesting
  | active
  | stopping
deriving DecidableEq

/-- The mutable session state touched by the stop path of `ActiveRunScreen`:
the `status` state, `runIdRef`, the in-memory foreground buffer
`coordsRef.current`, the durable background buffer stored under
`BG_BUFFER_KEY` (`none` = key absent), the `last_run_result` durable key and
whether `router.replace('/run/summary')` ran. -/
structure RunSession where
  status : RunStatus
  runId : Option String
  coords : List Coord
  bgBuffer : Option (List Coord)
  lastResult : Option String
  navigated : Bool

/-- Outcome of a `handleStopRun` invocation. -/
inductive StopOutcome
  | ignored
  | insufficientData
  | confirmStop
deriving DecidableEq

/-- `handleStopRun` from `active.tsx`: ignore the press unless the session is
active; with fewer than 2 foreground samples show the "Too Short" alert and
change nothing; otherwise show the stop confirmation (submission happens only
through `submitRun` after the user confirms). -/
def handleStopRun (s : RunSession) : StopOutcome × RunSession :=
  if s.status ≠ RunStatus.active then (StopOutcome.ignored, s)
  else if s.coords.length < 2 then (StopOutcome.insufficientData, s)
  else (StopOutcome.confirmStop, s)

/-- `submitRun` from `active.tsx`, with the remote `api.endRun` call
abstracted as the function argument `endRun`. Steps, in source order:
return if `runIdRef.current` is null; set status to `stopping`; read the
durable background buffer and, when present, merge it into the local
coordinate list and **remove the durable key**; convert to `[lng, lat]`
pairs; call `endRun`. On success store the result under `last_run_result`
and navigate to the summary; on failure set status to `active`. -/
noncomputable def submitRun
    (endRun : String → List (ℝ × ℝ) → Except String String)
    (s : RunSession) : RunSession :=
  match s.runId with
  | none => s
  | some rid =>
    let s1 : RunSession := { s with status := RunStatus.stopping }
    let merged : List Coord × RunSession :=
      match s1.bgBuffer with
      | some bgCoords =>
        (mergeCoords s1.coords bgCoords, { s1 with bgBuffer := none })
      | none => (s1.coords, s1)
    let geoCoords := merged.1.map fun c => (c.longitude, c.latitude)
    match endRun rid geoCoords with
    | Except.ok result =>
      { merged.2 with lastResult := some result, navigated := true }
    | Except.error _ => { merged.2 with status := RunStatus.active }

/-- The foreground `watchPositionAsync` callback of `initRun`, restricted to
the buffer and distance it mutates: when the buffer is nonempty, add the
haversine distance from its last sample to the new fix to the cumulative
distance, then append the fix. -/
noncomputable def recordFix (st : List Coord × ℝ) (c : Coord) : List Coord × ℝ :=
  match st.1.getLast? with
  | none => (st.1 ++ [c], st.2)
  | some prev => (st.1 ++ [c], st.2 + coordDist prev c)

/-- Foreground buffer and cumulative `distanceKm` after a sequence of fixes,
starting from the empty buffer and distance 0 (the first fix plays the role
of the initial `getCurrentPositionAsync` sample, appended with no distance). -/
noncomputable def liveTrack (samples : List Coord) : List Coord × ℝ :=
  List.foldl recordFix ([], 0) samples

/-- Sum of haversine distances between consecutive samples (what §8 calls the
sum of consecutive haversine distances). -/
noncomputable def consecutiveSum : List Coord → ℝ
  | [] => 0
  | [_] => 0
  | a :: b :: t => coordDist a b + consecutiveSum (b :: t)

/-- The pace update of the 1-second timer effect: replace the displayed pace
by `(secs / 60) / distanceKm` only when `distanceRef.current > 0 && secs > 0`,
otherwise leave it unchanged. -/
noncomputable def tickPace (secs : ℕ) (distanceKm pace : ℝ) : ℝ :=
  if 0 < distanceKm ∧ 0 < secs then ((secs : ℝ) / 60) / distanceKm else pace

/-- `secs.toString().padStart(2, '0')` for the seconds part of a pace. -/
def padTwo (n : ℤ) : String :=
  if (toString n).length < 2 then "0" ++ toString n else toString n

/-- `formatPace` from `geo.ts`: `'--:--'` when the pace is falsy or `≤ 0`,
otherwise `floor(pace)` minutes and `Math.round((pace - mins) * 60)` seconds,
zero-padded. -/
noncomputable def formatPace (paceMinPerKm : ℝ) : String :=
  if paceMinPerKm ≤ 0 then "--:--"
  else
    let mins : ℤ := ⌊paceMinPerKm⌋
    let secs : ℤ := round ((paceMinPerKm - (mins : ℝ)) * 60)
    toString mins ++ ":" ++ padTwo secs

lemma foldl_recordFix : ∀ (cs r : List Coord) (x : Coord) (d : ℝ),
    (List.foldl recordFix (r ++ [x], d) cs).2 = d + consecutiveSum (x :: cs)
  | [], r, x, d => by simp [consecutiveSum]
  | c :: cs, r, x, d => by
    have hstep : recordFix (r ++ [x], d) c =
        ((r ++ [x]) ++ [c], d + coordDist x c) := by
      rw [recordFix, List.getLast?_concat]
    rw [List.foldl_cons, hstep, foldl_recordFix cs (r ++ [x]) c (d + coordDist x c),
      consecutiveSum]
    ring

lemma liveTrack_distance : ∀ samples : List Coord,
    (liveTrack samples).2 = consecutiveSum samples
  | [] => rfl
  | c :: cs => by
    have h0 : recordFix ([], 0) c = ([] ++ [c], (0 : ℝ)) := rfl
    rw [liveTrack, List.foldl_cons, h0, foldl_recordFix cs [] c 0, zero_add]

/-- Equator sample at longitude 0°, timestamp 0. -/
def fA : Coord := ⟨0, 0, some 0⟩

/-- Equator sample at longitude 1° (≈ 111 km east of `fA`), timestamp 1000. -/
def fB : Coord := ⟨0, 1, some 1000⟩

/-- Equator sample at longitude 2°, timestamp 2000. -/
def fC : Coord := ⟨0, 2, some 2000⟩

/-- Sample used twice in a row (distance 0 to itself), timestamp 0. -/
def pDup : Coord := ⟨0, 0, some 0⟩

/-- Sample used twice in a row (distance 0 to itself), timestamp 5. -/
def qDup : Coord := ⟨0, 0, some 5⟩

/-- Equator sample ≈ 2.2 m west of longitude 0, timestamp 2000. -/
def cu : Coord := ⟨0, -2e-5, some 2000⟩

/-- Equator sample ≈ 2.8 m east of longitude 0, timestamp 1000. -/
def cv : Coord := ⟨0, 2.5e-5, some 1000⟩

/-- Equator sample at longitude 0, timestamp 500. -/
def cx : Coord := ⟨0, 0, some 500⟩

/-- Sample without a timestamp. -/
def pW : Coord := ⟨0, 0, none⟩

lemma tsKey_fA : tsKey fA = 0 := rfl
lemma tsKey_fB : tsKey fB = 1000 := rfl
lemma tsKey_fC : tsKey fC = 2000 := rfl
lemma tsKey_pDup : tsKey pDup = 0 := rfl
lemma tsKey_qDup : tsKey qDup = 5 := rfl
lemma tsKey_cu : tsKey cu = 2000 := rfl
lemma tsKey_cv : tsKey cv = 1000 := rfl
lemma tsKey_cx : tsKey cx = 500 := rfl

lemma dFar_fA_fB : 0.003 < coordDist fA fB := by
  have h : coordDist fA fB = haversineDistance (0, 0) (1, 0) := rfl
  rw [h, haversineDistance_equator 0 1 (by norm_num)]
  rw [show |(1 : ℝ) - 0| = 1 by rw [sub_zero, abs_one]]
  nlinarith [Real.pi_gt_d2]

lemma dFar_fB_fC : 0.003 < coordDist fB fC := by
  have h : coordDist fB fC = haversineDistance (1, 0) (2, 0) := rfl
  rw [h, haversineDistance_equator 1 2 (by norm_num)]
  rw [show |(2 : ℝ) - 1| = 1 by norm_num]
  nlinarith [Real.pi_gt_d2]

lemma dFar_cv_cu : 0.003 < coordDist cv cu := by
  have h : coordDist cv cu = haversineDistance (2.5e-5, 0) (-2e-5, 0) := rfl
  have habs : |(-2e-5 : ℝ) - 2.5e-5| = 4.5e-5 := by
    rw [show ((-2e-5 : ℝ) - 2.5e-5) = -(4.5e-5) by norm_num, abs_neg,
      abs_of_nonneg (by norm_num : (0 : ℝ) ≤ 4.5e-5)]
  rw [h, haversineDistance_equator 2.5e-5 (-2e-5) (by rw [habs]; norm_num), habs]
  nlinarith [Real.pi_gt_d6]

lemma dNear_cx_cv : ¬ 0.003 < coordDist cx cv := by
  have h : coordDist cx cv = haversineDistance (0, 0) (2.5e-5, 0) := rfl
  have habs : |(2.5e-5 : ℝ) - 0| = 2.5e-5 := by
    rw [sub_zero, abs_of_nonneg (by norm_num : (0 : ℝ) ≤ 2.5e-5)]
  rw [h, haversineDistance_equator 0 2.5e-5 (by rw [habs]; norm_num), habs, not_lt]
  nlinarith [Real.pi_lt_d2]

lemma dNear_cx_cu : ¬ 0.003 < coordDist cx cu := by
  have h : coordDist cx cu = haversineDistance (0, 0) (-2e-5, 0) := rfl
  have habs : |(-2e-5 : ℝ) - 0| = 2e-5 := by
    rw [sub_zero, abs_neg, abs_of_nonneg (by norm_num : (0 : ℝ) ≤ 2e-5)]
  rw [h, haversineDistance_equator 0 (-2e-5) (by rw [habs]; norm_num), habs, not_lt]
  nlinarith [Real.pi_lt_d2]

lemma dSelf_pDup : ¬ 0.003 < coordDist pDup pDup := by
  rw [coordDist_self]
  norm_num

lemma dSelf_qDup : ¬ 0.003 < coordDist qDup qDup := by
  rw [coordDist_self]
  norm_num

lemma sortTs_pDup2 : sortTs [pDup, pDup] = [pDup, pDup] := by
  simp [sortTs, insertTs, tsKey_pDup]

lemma dedupLoop_pDup2 : dedupLoop [pDup, pDup] = [pDup] := by
  simp [dedupLoop, dedupStep, dSelf_pDup]

lemma mergeCoords_pDup2 : mergeCoords [pDup, pDup] [] = [pDup, pDup] := by
  rw [mergeCoords, List.append_nil, sortTs_pDup2, dedupLoop_pDup2]
  simp

lemma specMergeAlg_pDup2 : specMergeAlg [pDup, pDup] [] = [pDup] := by
  rw [specMergeAlg, List.append_nil, sortTs_pDup2]
  simp [specDedup, dedupFrom, dSelf_pDup]

lemma sortTs_qDup2 : sortTs [qDup, qDup] = [qDup, qDup] := by
  simp [sortTs, insertTs, tsKey_qDup]

lemma dedupLoop_qDup2 : dedupLoop [qDup, qDup] = [qDup] := by
  simp [dedupLoop, dedupStep, dSelf_qDup]

lemma mergeCoords_qDup2 : mergeCoords [qDup, qDup] [] = [qDup, qDup] := by
  rw [mergeCoords, List.append_nil, sortTs_qDup2, dedupLoop_qDup2]
  simp

lemma specDedup_qDup2 : specDedup [qDup, qDup] = [qDup] := by
  simp [specDedup, dedupFrom, dSelf_qDup]

lemma sortTs_cucvcx : sortTs [cu, cv, cx] = [cx, cv, cu] := by
  simp [sortTs, insertTs, tsKey_cu, tsKey_cv, tsKey_cx]

lemma dedupLoop_cxcvcu : dedupLoop [cx, cv, cu] = [cx] := by
  simp [dedupLoop, dedupStep, dNear_cx_cv, dNear_cx_cu]

lemma mergeCoords_cucv_cx : mergeCoords [cu, cv] [cx] = [cu, cv] := by
  rw [mergeCoords, show [cu, cv] ++ [cx] = [cu, cv, cx] from rfl,
    sortTs_cucvcx, dedupLoop_cxcvcu]
  simp

lemma sortTs_cucv : sortTs [cu, cv] = [cv, cu] := by
  simp [sortTs, insertTs, tsKey_cu, tsKey_cv]

lemma dedupLoop_cvcu : dedupLoop [cv, cu] = [cv, cu] := by
  simp [dedupLoop, dedupStep, dFar_cv_cu]

lemma mergeCoords_cucv_nil : mergeCoords [cu, cv] [] = [cv, cu] := by
  rw [mergeCoords, List.append_nil, sortTs_cucv, dedupLoop_cvcu]
  simp

lemma sortTs_fAfB : sortTs [fA, fB] = [fA, fB] := by
  simp [sortTs, insertTs, tsKey_fA, tsKey_fB]

lemma dedupLoop_fAfB : dedupLoop [fA, fB] = [fA, fB] := by
  simp [dedupLoop, dedupStep, dFar_fA_fB]

lemma mergeCoords_nil_fAfB : mergeCoords [] [fA, fB] = [fA, fB] := by
  rw [mergeCoords, List.nil_append, sortTs_fAfB, dedupLoop_fAfB]
  simp

lemma specDedup_sortTs_fAfB : specDedup (sortTs [fA, fB]) = [fA, fB] := by
  rw [sortTs_fAfB]
  simp [specDedup, dedupFrom, dFar_fA_fB]

lemma specMergeAlg_fBfC : specMergeAlg [fB, fC] [] = [fB, fC] := by
  have hs : sortTs [fB, fC] = [fB, fC] := by
    simp [sortTs, insertTs, tsKey_fB, tsKey_fC]
  rw [specMergeAlg, List.append_nil, hs]
  simp [specDedup, dedupFrom, dFar_fB_fC]

/-- A remote `endRun` call that always fails (a network error). -/
def failEndRun : String → List (ℝ × ℝ) → Except String String :=
  fun _ _ => Except.error "NetworkError"

/-- An active session with two foreground samples and a nonempty durable
background buffer, about to stop. -/
def sessD : RunSession :=
  ⟨RunStatus.active, some "run-1", [fA, fB], some [fC], none, false⟩

/-- An active session that has collected a single foreground sample. -/
def sessW : RunSession :=
  ⟨RunStatus.active, some "run-1", [pW], none, none, false⟩

/-- Claim C1 (code bug, evaluated at the failing input): when `endRun` fails,
`submitRun` does revert the status to Active and leaves the in-memory
foreground buffer unchanged, but the durable background buffer — nonempty
before the call — has already been removed, contrary to the claim that all
local buffers are retained unchanged for a zero-data-loss retry. -/
theorem claim_c1_submit_failure_loses_background :
    (submitRun failEndRun sessD).status = RunStatus.active ∧
    (submitRun failEndRun sessD).coords = sessD.coords ∧
    sessD.bgBuffer = some [fC] ∧
    (submitRun failEndRun sessD).bgBuffer = none ∧
    (submitRun failEndRun sessD).bgBuffer ≠ sessD.bgBuffer := by
  refine ⟨rfl, rfl, rfl, rfl, fun h => ?_⟩
  simp [submitRun, failEndRun, sessD] at h

/-- Claim C2: whenever the foreground buffer alone has ≥ 2 samples, the merge
output has ≥ 2 samples; when the deduplicated result has fewer than 2 points
the merge returns the foreground buffer instead. -/
theorem claim_c2_merge_fallback (fg bg : List Coord) (h : 2 ≤ fg.length) :
    2 ≤ (mergeCoords fg bg).length ∧
    ((dedupLoop (sortTs (fg ++ bg))).length < 2 → mergeCoords fg bg = fg) := by
  have he : mergeCoords fg bg =
      if 2 ≤ (dedupLoop (sortTs (fg ++ bg))).length
      then dedupLoop (sortTs (fg ++ bg)) else fg := by
    rw [mergeCoords]
  by_cases hc : 2 ≤ (dedupLoop (sortTs (fg ++ bg))).length
  · rw [he, if_pos hc]
    exact ⟨hc, fun hlt => absurd hc (by omega)⟩
  · rw [he, if_neg hc]
    exact ⟨h, fun _ => rfl⟩

/-- Witness for C2 at a concrete two-sample foreground buffer. -/
theorem claim_c2_merge_fallback_w : 2 ≤ (mergeCoords [fA, fB] []).length :=
  (claim_c2_merge_fallback [fA, fB] [] (by simp)).1

/-- Counterexample to C3: `mergeCoords` is not the sort-then-dedup pipeline
alone — on a foreground buffer of two coincident samples the dedup result has
a single point and the fallback returns the unmodified foreground buffer,
which differs from the claimed pipeline output. -/
theorem claim_c3_counterexample :
    mergeCoords [pDup, pDup] [] ≠ specMergeAlg [pDup, pDup] [] := by
  rw [mergeCoords_pDup2, specMergeAlg_pDup2]
  intro h
  simpa using congrArg List.length h

/-- Claim C3 as amended: `mergeCoords(fg, bg)` equals the concatenation,
stably sorted ascending by timestamp (missing = 0) and greedily deduplicated
at the 3-meter threshold, **when that result keeps at least 2 points**;
otherwise it equals the foreground buffer (the step-4 fallback). -/
theorem claim_c3_amended (fg bg : List Coord) :
    mergeCoords fg bg =
      if 2 ≤ (specMergeAlg fg bg).length then specMergeAlg fg bg else fg :=
  mergeCoords_spec fg bg

/-- Counterexample to C4: with a foreground buffer of two coincident samples
and an empty background buffer, the dedup of the foreground alone keeps one
point, but `mergeCoords` falls back to the two-sample foreground buffer. -/
theorem claim_c4_counterexample :
    mergeCoords [qDup, qDup] [] ≠ specDedup [qDup, qDup] := by
  rw [mergeCoords_qDup2, specDedup_qDup2]
  intro h
  simpa using congrArg List.length h

/-- Claim C4 as amended: merging `fg` with an empty background buffer yields
the 3-meter greedy dedup of `fg` sorted by timestamp, whenever that dedup
keeps at least 2 points. -/
theorem claim_c4_amended (fg : List Coord)
    (h : 2 ≤ (specDedup (sortTs fg)).length) :
    mergeCoords fg [] = specDedup (sortTs fg) := by
  have he : specMergeAlg fg [] = specDedup (sortTs fg) := by
    rw [specMergeAlg, List.append_nil]
  rw [mergeCoords_spec, he, if_pos h]

/-- Witness for the amended C4 at a concrete far-apart pair. -/
theorem claim_c4_amended_w : mergeCoords [fA, fB] [] = specDedup (sortTs [fA, fB]) :=
  claim_c4_amended [fA, fB] (by rw [specDedup_sortTs_fAfB]; simp)

/-- Counterexample to C5: the merge is not idempotent after the fallback.
With an unsorted two-sample foreground buffer and one background point near
both samples, the dedup collapses to one point, so the merge falls back to
the foreground buffer; re-merging that route with an empty background buffer
re-sorts it and returns a different list. -/
theorem claim_c5_counterexample :
    mergeCoords (mergeCoords [cu, cv] [cx]) [] ≠ mergeCoords [cu, cv] [cx] := by
  rw [mergeCoords_cucv_cx, mergeCoords_cucv_nil]
  intro h
  have h2 := congrArg (List.map Coord.timestamp) h
  simp [cu, cv] at h2

/-- Claim C5 as amended: `mergeCoords` is deterministic, and whenever the
deduplicated sorted result kept at least 2 points (no fallback), re-merging
the merged route with an empty background buffer leaves it unchanged. -/
theorem claim_c5_amended (fg bg : List Coord) :
    (∀ fg2 bg2, fg = fg2 → bg = bg2 → mergeCoords fg bg = mergeCoords fg2 bg2) ∧
    (2 ≤ (specMergeAlg fg bg).length →
      mergeCoords (mergeCoords fg bg) [] = mergeCoords fg bg) :=
  ⟨fun fg2 bg2 h1 h2 => by rw [h1, h2], fun h => mergeCoords_self_merged h⟩

/-- Witness for the amended C5 at a concrete far-apart pair. -/
theorem claim_c5_amended_w :
    mergeCoords [fB, fC] [] = mergeCoords [fB, fC] [] ∧
    mergeCoords (mergeCoords [fB, fC] []) [] = mergeCoords [fB, fC] [] :=
  ⟨(claim_c5_amended [fB, fC] []).1 [fB, fC] [] rfl rfl,
    (claim_c5_amended [fB, fC] []).2 (by rw [specMergeAlg_fBfC]; simp)⟩

/-- Claim C6: after any sequence of foreground samples, the incrementally
accumulated `distanceKm` equals the sum of consecutive haversine distances,
within 1e-6 km (the two agree exactly). -/
theorem claim_c6_live_distance (samples : List Coord) :
    |(liveTrack samples).2 - consecutiveSum samples| ≤ 1e-6 := by
  rw [liveTrack_distance, sub_self, abs_zero]
  norm_num

/-- Claim C7: a stop request on an active session with fewer than 2 collected
foreground samples reports `insufficientData` and changes nothing — in
particular no submission is initiated. -/
theorem claim_c7_stop_insufficient (s : RunSession)
    (h1 : s.status = RunStatus.active) (h2 : s.coords.length < 2) :
    handleStopRun s = (StopOutcome.insufficientData, s) := by
  rw [handleStopRun, if_neg (by rw [h1]; simp), if_pos h2]

/-- Witness for C7 at an active session holding one sample. -/
theorem claim_c7_stop_insufficient_w :
    handleStopRun sessW = (StopOutcome.insufficientData, sessW) :=
  claim_c7_stop_insufficient sessW rfl (by decide)

/-- Claim C8: the pace is computed as `elapsedMinutes / distanceKm` only when
both the distance and the elapsed seconds are strictly positive; with a zero
distance the stored pace is left unchanged and the display shows the
placeholder `--:--`; no division by zero is ever performed. -/
theorem claim_c8_pace_guarded :
    (∀ (secs : ℕ) (d p : ℝ), 0 < d → 0 < secs →
      tickPace secs d p = ((secs : ℝ) / 60) / d) ∧
    (∀ (secs : ℕ) (p : ℝ), tickPace secs 0 p = p) ∧
    (∀ secs : ℕ, formatPace (tickPace secs 0 0) = "--:--") ∧
    formatPace 0 = "--:--" := by
  have hz : ∀ (secs : ℕ) (p : ℝ), tickPace secs 0 p = p := by
    intro secs p
    rw [tickPace, if_neg]
    intro hcontra
    exact lt_irrefl 0 hcontra.1
  have hfmt : formatPace 0 = "--:--" := by
    rw [formatPace, if_pos le_rfl]
  refine ⟨fun secs d p hd hs => ?_, hz, fun secs => ?_, hfmt⟩
  · rw [tickPace, if_pos ⟨hd, hs⟩]
  · rw [hz secs 0, hfmt]

/-- Witness for C8 at concrete values. -/
theorem claim_c8_pace_guarded_w :
    tickPace 30 2 0 = ((30 : ℝ) / 60) / 2 ∧ tickPace 30 0 7 = 7 :=
  ⟨claim_c8_pace_guarded.1 30 2 0 (by norm_num) (by norm_num),
    claim_c8_pace_guarded.2.1 30 7⟩

/-- Claim C9: the haversine distance is symmetric in its two coordinates. -/
theorem claim_c9_haversine_symm (p q : ℝ × ℝ) :
    haversineDistance p q = haversineDistance q p := by
  unfold haversineDistance
  rw [havA_symm]

/-- Counterexample to C10: with an empty foreground buffer and a background
buffer of two far-apart samples, `mergeCoords` returns the deduplicated
background route, not the (empty) foreground buffer. -/
theorem claim_c10_counterexample : mergeCoords [] [fA, fB] ≠ [] := by
  rw [mergeCoords_nil_fAfB]
  simp

/-- Claim C10 as amended: with fewer than 2 foreground samples **and an empty
background buffer**, `mergeCoords` returns the foreground buffer unchanged;
in particular empty input yields empty output, and the merge is total. -/
theorem claim_c10_amended (fg : List Coord) (h : fg.length < 2) :
    mergeCoords fg [] = fg := by
  match fg, h with
  | [], _ => rfl
  | [c], _ => rfl

/-- Witness for the amended C10 on the empty and a one-sample buffer. -/
theorem claim_c10_amended_w :
    mergeCoords [] [] = ([] : List Coord) ∧ mergeCoords [pW] [] = [pW] :=
  ⟨claim_c10_amended [] (by decide), claim_c10_amended [pW] (by decide)⟩
